import Mathlib

/-!
A verification development for the setsolver repository.

The development shallowly embeds the pure logic of the repository:

* `src/game/solver.ts` — the Set-rule predicate, the brute-force and the
  hash-accelerated set finders, the required-third-value computation and
  the index-to-card conversion helper;
* `src/analysis/opencv-detector.ts` — corner ordering, the bounding-box
  overlap test, the cross-strategy deduplication loop, the per-strategy
  contour filter chain (with the OpenCV primitives abstracted as an
  engine record), and the engine-unavailable fallbacks;
* `src/hooks/useSetSolver.ts` — the per-frame card assembly loop and the
  single-frame in-flight guard of `processFrame`.

JavaScript numbers are modelled as rationals; JavaScript `undefined`
results (out-of-range array lookup, absent engine) are modelled as
`Option.none`; a thrown exception is modelled as `Except.error`.
-/

/-! ## Solver data model (src/types.ts) -/

/-- Card shape domain: diamond, oval or squiggle. -/
inductive Shape where
  | diamond
  | oval
  | squiggle
deriving DecidableEq, Repr, Fintype

/-- Card color domain: red, green or purple. -/
inductive Color where
  | red
  | green
  | purple
deriving DecidableEq, Repr, Fintype

/-- Card number domain, the literal type `1 | 2 | 3`. -/
inductive Number where
  | one
  | two
  | three
deriving DecidableEq, Repr, Fintype

/-- Card shading domain: solid, striped or empty. -/
inductive Shading where
  | solid
  | striped
  | empty
deriving DecidableEq, Repr, Fintype

/-- Axis-aligned bounding box `[x1, y1, x2, y2]` (a 4-element array in the
source, modelled as a record with positional fields). -/
structure BBox where
  x1 : ℚ
  y1 : ℚ
  x2 : ℚ
  y2 : ℚ
deriving DecidableEq

/-- A 2-d point `{x, y}`. -/
def Point : Type := ℚ × ℚ

instance : DecidableEq Point := by
  unfold Point
  infer_instance

/-- The `Card` interface from src/types.ts: id, axis-aligned bbox, optional
corner list, the four 3-valued properties, and a confidence. -/
structure Card where
  id : Nat
  bbox : BBox
  corners : Option (List Point)
  shape : Shape
  color : Color
  number : Number
  shading : Shading
  confidence : ℚ
deriving DecidableEq

/-- The `SetResult` interface from src/types.ts: the three cards of a valid
set together with their indices into the frame card list. -/
structure SetResult where
  cards : Card × Card × Card
  indices : Nat × Nat × Nat
deriving DecidableEq

/-! ## Solver (src/game/solver.ts) -/

/-- `SHAPES` lookup table. -/
def SHAPES : List Shape := [Shape.diamond, Shape.oval, Shape.squiggle]

/-- `COLORS` lookup table. -/
def COLORS : List Color := [Color.red, Color.green, Color.purple]

/-- `NUMBERS` lookup table. -/
def NUMBERS : List Number := [Number.one, Number.two, Number.three]

/-- `SHADINGS` lookup table. -/
def SHADINGS : List Shading := [Shading.solid, Shading.striped, Shading.empty]

/-- `isIdenticalOrDistinct`: true iff the number of distinct values among the
three is not 2.  The source computes `new Set([v1, v2, v3]).size`; the size of
a JavaScript `Set` built from a list is the length of the list with duplicate
elements removed, modelled by `List.dedup`. -/
def isIdenticalOrDistinct {T : Type} [DecidableEq T] (v1 v2 v3 : T) : Bool :=
  [v1, v2, v3].dedup.length != 2

/-- `isValidSet`: the Set rule must hold independently on all four
properties. -/
def isValidSet (c1 c2 c3 : Card) : Bool :=
  isIdenticalOrDistinct c1.shape c2.shape c3.shape &&
  isIdenticalOrDistinct c1.color c2.color c3.color &&
  isIdenticalOrDistinct c1.number c2.number c3.number &&
  isIdenticalOrDistinct c1.shading c2.shading c3.shading

/-- `findAllSets`: brute-force enumeration of all index triples
`i < j < k`, keeping the valid ones.  The three nested source loops
(`i` to `n-3`, `j` from `i+1`, `k` from `j+1`) enumerate exactly the triples
with `i < j < k` in lexicographic order, modelled by filtering full index
ranges on `i < j ∧ j < k`. -/
def findAllSets (cards : List Card) : List SetResult :=
  (List.finRange cards.length).flatMap fun i =>
    (List.finRange cards.length).flatMap fun j =>
      (List.finRange cards.length).filterMap fun k =>
        if i < j ∧ j < k then
          if isValidSet (cards.get i) (cards.get j) (cards.get k) then
            some ⟨(cards.get i, cards.get j, cards.get k), (i.val, j.val, k.val)⟩
          else none
        else none

/-- A card signature.  The source builds the string key
`shape + dash + color + dash + number + dash + shading`; since no domain value
contains the dash delimiter, that key is injective in the four property
values and is modelled as the 4-tuple of properties. -/
def Sig : Type := Shape × Color × Number × Shading

instance : DecidableEq Sig := by
  unfold Sig
  infer_instance

/-- The signature (string key) of a card. -/
def cardKey (c : Card) : Sig := (c.shape, c.color, c.number, c.shading)

/-- The lookup map built by `findAllSetsOptimized` via
`cards.forEach((card, idx) => cardMap.set(key, idx))`: a later `set` for the
same key overwrites an earlier one, so the map sends a signature to the last
index bearing it. -/
def cardMapOf (cards : List Card) : Sig → Option (Fin cards.length) :=
  (List.finRange cards.length).foldl
    (fun m i => fun s => if s = cardKey (cards.get i) then some i else m s)
    (fun _ => none)

/-- `getThirdValue`: if the two values agree the third must equal them,
otherwise it is the remaining domain value.  The source uses
`allValues.find(...)!`; the non-null assertion is modelled with a default
that is never reached for the complete 3-element domains used at every call
site. -/
def getThirdValue {T : Type} [DecidableEq T] (v1 v2 : T) (allValues : List T) : T :=
  if v1 = v2 then v1
  else (allValues.find? fun v => v != v1 && v != v2).getD v1

/-- `computeRequiredThirdCard`: the property vector the third card must have
to complete a valid set with the given two cards.  The source returns an
object with the four property fields; only its signature key is consumed, so
the result is modelled as a `Sig`. -/
def computeRequiredThirdCard (c1 c2 : Card) : Sig :=
  (getThirdValue c1.shape c2.shape SHAPES,
   getThirdValue c1.color c2.color COLORS,
   getThirdValue c1.number c2.number NUMBERS,
   getThirdValue c1.shading c2.shading SHADINGS)

/-- `findAllSetsOptimized`: for every pair `i < j` look up the required
third signature in the card map and emit the triple when the hit `k`
satisfies `k > j`. -/
def findAllSetsOptimized (cards : List Card) : List SetResult :=
  let cardMap := cardMapOf cards
  (List.finRange cards.length).flatMap fun i =>
    (List.finRange cards.length).filterMap fun j =>
      if i < j then
        match cardMap (computeRequiredThirdCard (cards.get i) (cards.get j)) with
        | some k =>
          if j < k then
            some ⟨(cards.get i, cards.get j, cards.get k), (i.val, j.val, k.val)⟩
          else none
        | none => none
      else none

/-- `indicesToCard`: look the four indices up in the fixed tables.  A
JavaScript out-of-range array access yields `undefined`, modelled as
`Option.none` from `List.get?`. -/
def indicesToCard (shapeIdx colorIdx numberIdx shadingIdx : Nat) :
    Option Shape × Option Color × Option Number × Option Shading :=
  (SHAPES.get? shapeIdx, COLORS.get? colorIdx,
   NUMBERS.get? numberIdx, SHADINGS.get? shadingIdx)

/-! ## Detector (src/analysis/opencv-detector.ts) -/

/-- The `CardDetection` interface: bbox, the four ordered corners, and the
fill-ratio confidence. -/
structure CardDetection where
  bbox : BBox
  corners : List Point
  confidence : ℚ
deriving DecidableEq

/-- Corner score `x + y` used for the top-left and bottom-right corners. -/
def sumXY (p : Point) : ℚ := p.1 + p.2

/-- Corner score `y - x` used for the top-right and bottom-left corners. -/
def diffYX (p : Point) : ℚ := p.2 - p.1

/-- `pts[values.indexOf(m)]` for `m` the extremal value of `pts.map f`: the
first element of `pts` whose `f`-score equals `m`. -/
def selectAt (pts : List Point) (f : Point → ℚ) (m? : Option ℚ) : Option Point :=
  match m? with
  | none => none
  | some m => pts.find? fun p => f p == m

/-- `orderCorners`: pick top-left and bottom-right as the points of minimum
and maximum `x + y`, top-right and bottom-left as the points of minimum and
maximum `y - x`, returning `[tl, tr, br, bl]`.  `Math.min(...)` over a
nonempty array is the fold of binary `min`, which is `List.min?`; ties are
broken toward the earliest index, which is `List.find?`.  On an empty input
the source would index with `-1` and yield no point, modelled as `none`; the
detector only ever passes four points. -/
def orderCorners (pts : List Point) : Option (Point × Point × Point × Point) :=
  match selectAt pts sumXY (pts.map sumXY).min?,
        selectAt pts diffYX (pts.map diffYX).min?,
        selectAt pts sumXY (pts.map sumXY).max?,
        selectAt pts diffYX (pts.map diffYX).max? with
  | some tl, some tr, some br, some bl => some (tl, tr, br, bl)
  | _, _, _, _ => none

/-- `rectanglesOverlap`: the intersection area of the two axis-aligned boxes
must exceed `threshold` times the smaller box area. -/
def rectanglesOverlap (a b : BBox) (threshold : ℚ) : Bool :=
  let overlapX := max 0 (min a.x2 b.x2 - max a.x1 b.x1)
  let overlapY := max 0 (min a.y2 b.y2 - max a.y1 b.y1)
  let overlapArea := overlapX * overlapY
  let areaA := (a.x2 - a.x1) * (a.y2 - a.y1)
  let areaB := (b.x2 - b.x1) * (b.y2 - b.y1)
  let minArea := min areaA areaB
  overlapArea > minArea * threshold

/-- One step of the cross-strategy deduplication loop in `detectCardsOpenCV`:
a new detection is dropped when it overlaps an already accepted one by more
than 40 percent of the smaller area. -/
def dedupStep (acc : List CardDetection) (det : CardDetection) : List CardDetection :=
  if acc.any (fun existing => rectanglesOverlap existing.bbox det.bbox (2/5)) then acc
  else acc ++ [det]

/-- The deduplicating accumulation of one strategy batch of detections onto
the already accepted list (`for (const det of detections) ...`). -/
def dedupDetections (acc : List CardDetection) (dets : List CardDetection) :
    List CardDetection :=
  dets.foldl dedupStep acc

/-- A minimum-area rotated rectangle (`cv.minAreaRect` result): its side
lengths and its four corner points (`cv.RotatedRect.points` always yields
exactly four points). -/
structure RotRect where
  width : ℚ
  height : ℚ
  points : Point × Point × Point × Point

/-- One detection strategy parameter tuple. -/
structure Strategy where
  sThresh : ℚ
  vThresh : ℚ
  cannyLow : ℚ
  cannyHigh : ℚ
  morphSize : ℚ

/-- An `ImageData` pixel buffer: abstract pixel contents plus dimensions. -/
structure ImageData (Raw : Type) where
  raw : Raw
  width : ℚ
  height : ℚ

/-- The OpenCV backend, abstracted to the primitives the detector invokes.
`contoursOf` bundles the per-strategy mask construction (saturation and
value thresholds, Canny edges, bitwise or, morphological closing) with
`cv.findContours`; the remaining fields model `cv.contourArea`,
`cv.minAreaRect`, `cv.boundingRect`, the saturation standard deviation of a
region of interest (`cv.meanStdDev` over the split HSV channel), image
geometry, `cv.resize`, the RGBA-to-BGR conversion of `cv.matFromImageData`,
and the perspective warp of lines 300-335.  The backend being absent
(the global cv symbol being undefined) is modelled by passing `none` in place of this
record. -/
structure CVEngine (Raw Img Contour : Type) where
  fromImageData : ImageData Raw → Img
  cols : Img → ℚ
  rows : Img → ℚ
  resize : Img → ℚ → ℚ → Img
  contoursOf : Strategy → Img → List Contour
  contourArea : Contour → ℚ
  minAreaRect : Contour → RotRect
  boundingRect : Contour → BBox
  satStdDev : Img → BBox → ℚ
  warp : ImageData Raw → Point × Point × Point × Point → ℚ → ℚ → Raw

/-- Minimum of four rationals, `Math.min(a, b, c, d)`. -/
def min4 (a b c d : ℚ) : ℚ := min (min (min a b) c) d

/-- Maximum of four rationals, `Math.max(a, b, c, d)`. -/
def max4 (a b c d : ℚ) : ℚ := max (max (max a b) c) d

/-- `detectWithStrategy`: run one strategy over the downscaled image and push
every contour that survives the filter chain (area window, non-degenerate
rotated rectangle, fill ratio, aspect ratio, saturation variance, visible
fraction of the full-resolution bbox), with confidence set to the fill
ratio.  Every `continue` of the source loop is a `none` of the
`filterMap`. -/
def detectWithStrategy {Raw Img Contour : Type} (e : CVEngine Raw Img Contour)
    (img : Img) (scale : ℚ) (imgArea : ℚ) (params : Strategy) : List CardDetection :=
  (e.contoursOf params img).filterMap fun c =>
    let area := e.contourArea c
    if area < imgArea * (5 / 1000) then none
    else if area > imgArea * (50 / 100) then none
    else
      let rect := e.minAreaRect c
      let w := rect.width
      let h := rect.height
      let rectArea := w * h
      if rectArea ≤ 1 then none
      else
        let fill := area / rectArea
        if fill < 60 / 100 then none
        else
          let aspect := max (h / max 1 w) (w / max 1 h)
          if aspect < 11 / 10 ∨ aspect > 22 / 10 then none
          else
            let boundRect := e.boundingRect c
            let satStd := e.satStdDev img boundRect
            if satStd < 8 then none
            else
              let q := rect.points
              let corners := [(q.1.1 / scale, q.1.2 / scale),
                              (q.2.1.1 / scale, q.2.1.2 / scale),
                              (q.2.2.1.1 / scale, q.2.2.1.2 / scale),
                              (q.2.2.2.1 / scale, q.2.2.2.2 / scale)]
              match orderCorners corners with
              | none => none
              | some (tl, tr, br, bl) =>
                let bbox : BBox :=
                  { x1 := min4 tl.1 tr.1 br.1 bl.1,
                    y1 := min4 tl.2 tr.2 br.2 bl.2,
                    x2 := max4 tl.1 tr.1 br.1 bl.1,
                    y2 := max4 tl.2 tr.2 br.2 bl.2 }
                let imgW := e.cols img / scale
                let imgH := e.rows img / scale
                let bboxW := bbox.x2 - bbox.x1
                let bboxH := bbox.y2 - bbox.y1
                let visibleX := min bbox.x2 imgW - max bbox.x1 0
                let visibleY := min bbox.y2 imgH - max bbox.y1 0
                let visible := (visibleX * visibleY) / (bboxW * bboxH)
                if visible < 85 / 100 then none
                else some { bbox := bbox, corners := [tl, tr, br, bl], confidence := fill }

/-- The three detection strategies of `detectCardsOpenCV`, from strict white
to very relaxed. -/
def strategies : List Strategy :=
  [⟨60, 140, 30, 100, 5⟩, ⟨80, 120, 40, 120, 7⟩, ⟨100, 100, 50, 150, 9⟩]

/-- Row bucket of a detection for the reading-order sort:
`Math.floor(centerY / rowHeight)`. -/
def detRow (rowHeight : ℚ) (d : CardDetection) : ℤ :=
  ⌊((d.bbox.y1 + d.bbox.y2) / 2) / rowHeight⌋

/-- Horizontal center of a detection. -/
def detCenterX (d : CardDetection) : ℚ := (d.bbox.x1 + d.bbox.x2) / 2

/-- The sort comparator of `detectCardsOpenCV` (row bucket first, then
horizontal center), as the total preorder it induces; the stable JavaScript
sort under this consistent comparator is a stable merge sort by this
relation. -/
def detLE (rowHeight : ℚ) (a b : CardDetection) : Bool :=
  decide (detRow rowHeight a < detRow rowHeight b ∨
    (detRow rowHeight a = detRow rowHeight b ∧ detCenterX a ≤ detCenterX b))

/-- `detectCardsOpenCV`: with no backend, warn and return the empty list;
otherwise convert and downscale the image, run the three strategies with
cross-strategy deduplication, and sort the result in reading order.
`Math.round` rounds half up, which is `round` on rationals. -/
def detectCardsOpenCV {Raw Img Contour : Type}
    (engine : Option (CVEngine Raw Img Contour)) (imageData : ImageData Raw) :
    List CardDetection :=
  match engine with
  | none => []
  | some e =>
    let bgr := e.fromImageData imageData
    let maxWidth : ℚ := 1200
    let scale := if e.cols bgr > maxWidth then maxWidth / e.cols bgr else 1
    let img :=
      if e.cols bgr > maxWidth then
        e.resize bgr maxWidth ((round (e.rows bgr * scale) : ℤ) : ℚ)
      else bgr
    let imgArea := e.rows img * e.cols img
    let allCards := strategies.foldl
      (fun acc strat => dedupDetections acc (detectWithStrategy e img scale imgArea strat)) []
    allCards.mergeSort (detLE (imageData.height / 6))

/-- A thrown JavaScript exception. -/
inductive JsError where
  | typeError
deriving DecidableEq

/-- `warpCardToImageData`: with no backend, warn and return `null`; otherwise
measure the top edge and the left edge of the quadrilateral, rotate the
corner assignment one position when the card is landscape, and warp to an
`outW` by `outH` canonical image.  `Math.hypot` comparisons of nonnegative
lengths are modelled by comparing squared lengths.  With fewer than four
corners the source destructuring produces `undefined` entries and the field
accesses throw, modelled by `Except.error`. -/
def warpCardToImageData {Raw Img Contour : Type}
    (engine : Option (CVEngine Raw Img Contour)) (imageData : ImageData Raw)
    (corners : List Point) (outW outH : ℚ) : Except JsError (Option (ImageData Raw)) :=
  match engine with
  | none => .ok none
  | some e =>
    match corners with
    | tl0 :: tr0 :: br0 :: bl0 :: _ =>
      let cardWidthSq := (tr0.1 - tl0.1) ^ 2 + (tr0.2 - tl0.2) ^ 2
      let cardHeightSq := (bl0.1 - tl0.1) ^ 2 + (bl0.2 - tl0.2) ^ 2
      let quad :=
        if cardWidthSq > cardHeightSq then (bl0, tl0, tr0, br0)
        else (tl0, tr0, br0, bl0)
      .ok (some ⟨e.warp imageData quad outW outH, outW, outH⟩)
    | _ => .error .typeError

/-! ## Frame processing (src/hooks/useSetSolver.ts) -/

/-- The index part of a `ClassificationResult`: four property indices, each
in `[0, 3)` for a well-behaved classifier, but typed as plain numbers. -/
structure Classification where
  shape : Nat
  color : Nat
  number : Nat
  shading : Nat

/-- A card as assembled by the `processFrame` loop: detection geometry plus
the looked-up property values.  The property fields carry the possibly
absent results of `indicesToCard` (a JavaScript `undefined` for an
out-of-range classifier index). -/
structure FrameCard where
  id : Nat
  bbox : BBox
  corners : List Point
  confidence : ℚ
  shape : Option Shape
  color : Option Color
  number : Option Number
  shading : Option Shading
deriving DecidableEq

/-- The per-frame card assembly loop of `processFrame` (the body of
step 2): for each detection index, warp the card; on a `null` warp skip the
card (`continue`); otherwise classify it, convert the indices and push a
card whose `id` is the detection index.  A thrown classification error
aborts the frame. -/
def buildStep {Raw Img Contour : Type}
    (engine : Option (CVEngine Raw Img Contour)) (imageData : ImageData Raw)
    (detections : List CardDetection)
    (classify : ImageData Raw → Except JsError Classification)
    (cards : List FrameCard) (idx : Fin detections.length) :
    Except JsError (List FrameCard) :=
  match warpCardToImageData engine imageData (detections.get idx).corners 200 300 with
  | .error err => .error err
  | .ok none => .ok cards
  | .ok (some cardImageData) =>
    match classify cardImageData with
    | .error err => .error err
    | .ok classification =>
      let props := indicesToCard classification.shape classification.color
        classification.number classification.shading
      .ok (cards ++ [{ id := idx.val, bbox := (detections.get idx).bbox,
                       corners := (detections.get idx).corners,
                       confidence := (detections.get idx).confidence,
                       shape := props.1, color := props.2.1,
                       number := props.2.2.1, shading := props.2.2.2 }])

/-- The whole card assembly loop, folding `buildStep` over the detection
indices in order. -/
def buildCards {Raw Img Contour : Type}
    (engine : Option (CVEngine Raw Img Contour)) (imageData : ImageData Raw)
    (detections : List CardDetection)
    (classify : ImageData Raw → Except JsError Classification) :
    Except JsError (List FrameCard) :=
  (List.finRange detections.length).foldlM
    (buildStep engine imageData detections classify) []

/-- The body of the `try` block of `processFrame` (lines 55-105): mock mode,
a missing classifier or an unloaded OpenCV yield the synthetic mock cards
(their random generation abstracted as the `mockCards` input); the real path
detects the cards and assembles them with `buildCards`.  The `findAllSets`
call on the assembled cards and the timing fields of the result are the
solver embedded above and are not repeated here. -/
def frameBody {Raw Img Contour : Type}
    (mockMode : Bool) (classifierLoaded : Bool)
    (engine : Option (CVEngine Raw Img Contour))
    (classify : ImageData Raw → Except JsError Classification)
    (mockCards : List FrameCard) (imageData : ImageData Raw) :
    Except JsError (List FrameCard) :=
  if mockMode || !classifierLoaded then .ok mockCards
  else if engine.isNone then .ok mockCards
  else
    let detections := detectCardsOpenCV engine imageData
    if detections.length = 0 then .ok []
    else buildCards engine imageData detections classify

/-- `processFrame` as a state transition on the in-flight guard
`isProcessingRef.current`.  A call while a frame is in flight returns `null`
at once, leaving the guard and the stored results untouched.  Otherwise the
guard is raised and the body runs inside `try`/`catch`/`finally`: mock mode,
a missing classifier or an unloaded OpenCV yield the synthetic mock cards
(their random generation abstracted as the `mockCards` input); the real path
detects, then assembles the cards.  An `Except.error` of the body is the
caught exception path returning `null`.  The second component of the result
is the guard after the call; the `finally` block clears it on both the
success and the failure path.  The `findAllSets` call on the assembled cards
and the timing fields are the solver embedded above and are not repeated
here. -/
def processFrame {Raw Img Contour : Type}
    (isProcessing : Bool) (mockMode : Bool) (classifierLoaded : Bool)
    (engine : Option (CVEngine Raw Img Contour))
    (classify : ImageData Raw → Except JsError Classification)
    (mockCards : List FrameCard) (imageData : ImageData Raw) :
    Option (List FrameCard) × Bool :=
  if isProcessing then (none, isProcessing)
  else
    match frameBody mockMode classifierLoaded engine classify mockCards imageData with
    | .ok cards => (some cards, false)
    | .error _ => (none, false)

/-! ## Concrete instances used by witnesses -/

/-- A trivial backend over unit pixel types, used to run the embedded
pipeline on concrete inputs. -/
def unitEngine : CVEngine Unit Unit Unit where
  fromImageData := fun _ => ()
  cols := fun _ => 100
  rows := fun _ => 100
  resize := fun _ _ _ => ()
  contoursOf := fun _ _ => []
  contourArea := fun _ => 0
  minAreaRect := fun _ => ⟨0, 0, ((0, 0), (0, 0), (0, 0), (0, 0))⟩
  boundingRect := fun _ => ⟨0, 0, 0, 0⟩
  satStdDev := fun _ _ => 0
  warp := fun _ _ _ _ => ()

/-- A concrete detection with four corners. -/
def det0 : CardDetection :=
  { bbox := ⟨0, 0, 1, 1⟩, corners := [(0, 0), (1, 0), (1, 1), (0, 1)], confidence := 1 }

/-- A second concrete detection with four corners. -/
def det1 : CardDetection :=
  { bbox := ⟨2, 0, 3, 1⟩, corners := [(2, 0), (3, 0), (3, 1), (2, 1)], confidence := 1 }

/-- A 10 by 10 detection box at the origin. -/
def dA : CardDetection := { bbox := ⟨0, 0, 10, 10⟩, corners := [], confidence := 1 }

/-- A 10 by 10 detection box whose intersection with `dA` is exactly 40
percent of either area. -/
def dB : CardDetection := { bbox := ⟨6, 0, 16, 10⟩, corners := [], confidence := 1 }

/-- An 8 by 10 detection box fully inside `dA`, overlapping it by 100
percent of the smaller area. -/
def dC : CardDetection := { bbox := ⟨0, 0, 8, 10⟩, corners := [], confidence := 1 }

/-- An axis-aligned unit square, traversed counterclockwise from the
origin.  All four corner scores (`x + y` and `y - x` extrema) are uniquely
attained. -/
def squareQ : List Point := [(0, 0), (1, 0), (1, 1), (0, 1)]

/-- The same square traversed in the reversed order. -/
def squareQrev : List Point := [(0, 1), (1, 1), (1, 0), (0, 0)]

/-- A square rotated 45 degrees (a convex quadrilateral), traversed in
cyclic order.  Its `x + y` score is 0 on both (0,0) and (1,-1) and 2 on
both (1,1) and (2,0), so the corner-score extrema are tied. -/
def quadTie : List Point := [(0, 0), (1, 1), (2, 0), (1, -1)]

/-- The same rotated square traversed in the reversed order. -/
def quadTieRev : List Point := [(1, -1), (2, 0), (1, 1), (0, 0)]

/-- The first (strict white) detection strategy. -/
def strat0 : Strategy := ⟨60, 140, 30, 100, 5⟩

/-- A backend over unit pixel types reporting a single contour of area 1000
with a 30 by 40 minimum-area rectangle in a 100 by 100 image: the contour
passes every filter of the strategy pipeline with fill ratio 5/6. -/
def eng10 : CVEngine Unit Unit Unit where
  fromImageData := fun _ => ()
  cols := fun _ => 100
  rows := fun _ => 100
  resize := fun _ _ _ => ()
  contoursOf := fun _ _ => [()]
  contourArea := fun _ => 1000
  minAreaRect := fun _ => ⟨30, 40, ((10, 10), (40, 10), (40, 50), (10, 50))⟩
  boundingRect := fun _ => ⟨10, 10, 40, 50⟩
  satStdDev := fun _ _ => 10
  warp := fun _ _ _ _ => ()

/-- The detection that `eng10` yields under `strat0`. -/
def det10 : CardDetection :=
  { bbox := ⟨10, 10, 40, 50⟩,
    corners := [(10, 10), (40, 10), (40, 50), (10, 50)],
    confidence := 5/6 }

/-- The card `(diamond, red, 1, solid)` of the specification scenario. -/
def cardA : Card :=
  { id := 0, bbox := ⟨0, 0, 0, 0⟩, corners := none, shape := Shape.diamond,
    color := Color.red, number := Number.one, shading := Shading.solid, confidence := 1 }

/-- The card `(oval, red, 1, solid)`. -/
def cardB : Card :=
  { id := 1, bbox := ⟨0, 0, 0, 0⟩, corners := none, shape := Shape.oval,
    color := Color.red, number := Number.one, shading := Shading.solid, confidence := 1 }

/-- The card `(squiggle, red, 1, solid)`: `[cardA, cardB, cardC]` is a valid
set, all-different in shape and all-same elsewhere. -/
def cardC : Card :=
  { id := 2, bbox := ⟨0, 0, 0, 0⟩, corners := none, shape := Shape.squiggle,
    color := Color.red, number := Number.one, shading := Shading.solid, confidence := 1 }

/-- A second card with the same property combination as `cardC`. -/
def cardC2 : Card :=
  { id := 3, bbox := ⟨0, 0, 0, 0⟩, corners := none, shape := Shape.squiggle,
    color := Color.red, number := Number.one, shading := Shading.solid, confidence := 1 }

/-- Three cards with pairwise-distinct property combinations. -/
def cardsABC : List Card := [cardA, cardB, cardC]

/-- Four cards in which the property combination of `cardC` occurs twice. -/
def cardsDup : List Card := [cardA, cardB, cardC, cardC2]

/-- The set result `(cardA, cardB, cardC)` at indices `(0, 1, 2)`. -/
def tripleABC : SetResult := ⟨(cardA, cardB, cardC), (0, 1, 2)⟩

/-! ## Spec-side definitions

These definitions follow the wording of the specification and the claims,
for comparison against the embedded source functions. -/

/-- The number of distinct values among three, following the claim wording
(the size of the set of values). -/
def distinctCount {T : Type} [DecidableEq T] (a b c : T) : Nat :=
  ({a, b, c} : Finset T).card

/-- Intersection area of two axis-aligned boxes, following the claim
wording. -/
def interArea (a b : BBox) : ℚ :=
  max 0 (min a.x2 b.x2 - max a.x1 b.x1) * max 0 (min a.y2 b.y2 - max a.y1 b.y1)

/-- Area of an axis-aligned box. -/
def boxArea (a : BBox) : ℚ :=
  (a.x2 - a.x1) * (a.y2 - a.y1)

/-! ## Theorems -/

/-- The Set rule on one property, characterised by the distinct-value
count, for each of the four property domains. -/
theorem iod_shape_iff (a b c : Shape) :
    isIdenticalOrDistinct a b c = true ↔ distinctCount a b c ≠ 2 := by
  revert a b c
  decide

/-- The Set rule on the color property via the distinct-value count. -/
theorem iod_color_iff (a b c : Color) :
    isIdenticalOrDistinct a b c = true ↔ distinctCount a b c ≠ 2 := by
  revert a b c
  decide

/-- The Set rule on the number property via the distinct-value count. -/
theorem iod_number_iff (a b c : Number) :
    isIdenticalOrDistinct a b c = true ↔ distinctCount a b c ≠ 2 := by
  revert a b c
  decide

/-- The Set rule on the shading property via the distinct-value count. -/
theorem iod_shading_iff (a b c : Shading) :
    isIdenticalOrDistinct a b c = true ↔ distinctCount a b c ≠ 2 := by
  revert a b c
  decide

/-- C1: `isValidSet` returns true iff, for each of the four properties
independently, the number of distinct values among the three cards is not
exactly 2 (equivalently, on each property the values are all equal or all
pairwise distinct). -/
theorem c1_isValidSet_iff (c1 c2 c3 : Card) :
    isValidSet c1 c2 c3 = true ↔
      (distinctCount c1.shape c2.shape c3.shape ≠ 2 ∧
       distinctCount c1.color c2.color c3.color ≠ 2 ∧
       distinctCount c1.number c2.number c3.number ≠ 2 ∧
       distinctCount c1.shading c2.shading c3.shading ≠ 2) := by
  simp [isValidSet, Bool.and_eq_true, iod_shape_iff, iod_color_iff,
    iod_number_iff, iod_shading_iff, and_assoc]

/-- C5: for every pair `(a, b)` of one 3-element property domain there is
exactly one `c` with the Set rule holding on `(a, b, c)`; `getThirdValue`
returns that `c`, which equals `a` when `a = b` and is the remaining third
domain value otherwise.  Stated for each of the four domains with its fixed
table. -/
theorem c5_getThirdValue_unique :
    (∀ a b : Shape,
      (∃! c, isIdenticalOrDistinct a b c = true) ∧
      isIdenticalOrDistinct a b (getThirdValue a b SHAPES) = true ∧
      (∀ c, isIdenticalOrDistinct a b c = true → c = getThirdValue a b SHAPES) ∧
      (a = b → getThirdValue a b SHAPES = a) ∧
      (a ≠ b → getThirdValue a b SHAPES ≠ a ∧ getThirdValue a b SHAPES ≠ b)) ∧
    (∀ a b : Color,
      (∃! c, isIdenticalOrDistinct a b c = true) ∧
      isIdenticalOrDistinct a b (getThirdValue a b COLORS) = true ∧
      (∀ c, isIdenticalOrDistinct a b c = true → c = getThirdValue a b COLORS) ∧
      (a = b → getThirdValue a b COLORS = a) ∧
      (a ≠ b → getThirdValue a b COLORS ≠ a ∧ getThirdValue a b COLORS ≠ b)) ∧
    (∀ a b : Number,
      (∃! c, isIdenticalOrDistinct a b c = true) ∧
      isIdenticalOrDistinct a b (getThirdValue a b NUMBERS) = true ∧
      (∀ c, isIdenticalOrDistinct a b c = true → c = getThirdValue a b NUMBERS) ∧
      (a = b → getThirdValue a b NUMBERS = a) ∧
      (a ≠ b → getThirdValue a b NUMBERS ≠ a ∧ getThirdValue a b NUMBERS ≠ b)) ∧
    (∀ a b : Shading,
      (∃! c, isIdenticalOrDistinct a b c = true) ∧
      isIdenticalOrDistinct a b (getThirdValue a b SHADINGS) = true ∧
      (∀ c, isIdenticalOrDistinct a b c = true → c = getThirdValue a b SHADINGS) ∧
      (a = b → getThirdValue a b SHADINGS = a) ∧
      (a ≠ b → getThirdValue a b SHADINGS ≠ a ∧ getThirdValue a b SHADINGS ≠ b)) := by
  simp only [ExistsUnique]
  refine ⟨?_, ?_, ?_, ?_⟩ <;> decide

/-- Witness for C5 at a concrete pair: the third value completing diamond
and oval is squiggle, obtained from the uniqueness part of the theorem. -/
theorem c5_witness : Shape.squiggle = getThirdValue Shape.diamond Shape.oval SHAPES :=
  (c5_getThirdValue_unique.1 Shape.diamond Shape.oval).2.2.1 Shape.squiggle (by decide)

/-- C9 (amended): for indices in `[0, 3)` the conversion returns the table
entries at those positions; for an out-of-range index the call is not
fatal — it completes normally, with the corresponding component absent
(the JavaScript `undefined` of an out-of-range array access, modelled
`none`): no fallback domain value is produced, but no error is signalled
either. -/
theorem c9_indicesToCard_contract :
    (∀ i j k l : Fin 3,
      indicesToCard i.val j.val k.val l.val =
        (some (SHAPES.get ⟨i.val, i.isLt⟩), some (COLORS.get ⟨j.val, j.isLt⟩),
         some (NUMBERS.get ⟨k.val, k.isLt⟩), some (SHADINGS.get ⟨l.val, l.isLt⟩))) ∧
    (∀ i j k l : Nat,
      (3 ≤ i → (indicesToCard i j k l).1 = none) ∧
      (3 ≤ j → (indicesToCard i j k l).2.1 = none) ∧
      (3 ≤ k → (indicesToCard i j k l).2.2.1 = none) ∧
      (3 ≤ l → (indicesToCard i j k l).2.2.2 = none)) := by
  constructor
  · decide
  · intro i j k l
    refine ⟨fun h => ?_, fun h => ?_, fun h => ?_, fun h => ?_⟩ <;>
      simp [indicesToCard, List.get?_eq_none, SHAPES, COLORS, NUMBERS, SHADINGS] <;>
      omega

/-- Witness for C9: a concrete in-range conversion and a concrete
out-of-range conversion. -/
theorem c9_witness :
    indicesToCard 0 1 2 0 =
      (some Shape.diamond, some Color.green, some Number.three, some Shading.solid) ∧
    (indicesToCard 3 0 0 0).1 = none :=
  ⟨by simpa [SHAPES, COLORS, NUMBERS, SHADINGS] using
      c9_indicesToCard_contract.1 0 1 2 0,
   (c9_indicesToCard_contract.2 3 0 0 0).1 (by decide)⟩

/-- Counterexample to C9 as stated: the claim calls an out-of-range index
fatal — the call signals a programming error.  In the source nothing of the
kind happens: `SHAPES[3]` is `undefined`, the call returns an ordinary
object whose other components are still looked up, and the frame-assembly
loop then completes successfully, pushing the degenerate card and
continuing — where a fatal, error-signalling call would have aborted the
conversion (no result object) or thrown out of the loop
(`Except.error`). -/
theorem c9_counterexample :
    indicesToCard 3 0 0 0 =
      (none, some Color.red, some Number.one, some Shading.solid) ∧
    buildCards (some unitEngine) ⟨(), 100, 100⟩ [det0]
        (fun _ => .ok ⟨3, 0, 0, 0⟩) =
      .ok [{ id := 0, bbox := ⟨0, 0, 1, 1⟩,
             corners := [(0, 0), (1, 0), (1, 1), (0, 1)], confidence := 1,
             shape := none, color := some Color.red,
             number := some Number.one, shading := some Shading.solid }] :=
  ⟨rfl, rfl⟩

/-- C7: with the geometric engine unavailable, `detectCardsOpenCV` returns
the empty list and `warpCardToImageData` returns `null`, for every image and
corner set; both return normally (`Except.ok`), so no exception is
propagated. -/
theorem c7_engine_unavailable {Raw Img Contour : Type} (imageData : ImageData Raw)
    (corners : List Point) (outW outH : ℚ) :
    detectCardsOpenCV (none : Option (CVEngine Raw Img Contour)) imageData = [] ∧
    warpCardToImageData (none : Option (CVEngine Raw Img Contour)) imageData
      corners outW outH = Except.ok none :=
  ⟨rfl, rfl⟩

/-- C8: a `processFrame` call while a frame is in flight returns `null` and
leaves the guard (and hence all state) untouched; a call that does run
always leaves the guard cleared, on the success path and on the error path
alike. -/
theorem c8_in_flight_guard {Raw Img Contour : Type}
    (mockMode classifierLoaded : Bool) (engine : Option (CVEngine Raw Img Contour))
    (classify : ImageData Raw → Except JsError Classification)
    (mockCards : List FrameCard) (imageData : ImageData Raw) :
    processFrame true mockMode classifierLoaded engine classify mockCards imageData
      = (none, true) ∧
    (processFrame false mockMode classifierLoaded engine classify mockCards
      imageData).2 = false := by
  refine ⟨rfl, ?_⟩
  show (match frameBody mockMode classifierLoaded engine classify mockCards imageData with
    | .ok cards => ((some cards : Option (List FrameCard)), false)
    | .error _ => (none, false)).2 = false
  cases frameBody mockMode classifierLoaded engine classify mockCards imageData <;> rfl

/-- With an available backend, `warpCardToImageData` never returns `null`:
the only `null` return of the source is the backend-unavailable guard. -/
theorem warp_some_ne_ok_none {Raw Img Contour : Type} (e : CVEngine Raw Img Contour)
    (imageData : ImageData Raw) (corners : List Point) (outW outH : ℚ) :
    warpCardToImageData (some e) imageData corners outW outH ≠ Except.ok none := by
  cases corners with
  | nil => simp [warpCardToImageData]
  | cons a t =>
    cases t with
    | nil => simp [warpCardToImageData]
    | cons b t2 =>
      cases t2 with
      | nil => simp [warpCardToImageData]
      | cons c t3 =>
        cases t3 with
        | nil => simp [warpCardToImageData]
        | cons d t4 => simp [warpCardToImageData]

/-- With a missing backend, every detection is skipped and the assembled
card list is empty. -/
theorem buildCards_none {Raw Img Contour : Type} (imageData : ImageData Raw)
    (detections : List CardDetection)
    (classify : ImageData Raw → Except JsError Classification) :
    buildCards (none : Option (CVEngine Raw Img Contour)) imageData detections classify
      = .ok [] := by
  unfold buildCards
  generalize List.finRange detections.length = l
  induction l with
  | nil => rfl
  | cons i t ih =>
    rw [List.foldlM_cons]
    exact ih

/-- With an available backend, one step of the assembly loop either throws
or appends exactly one card whose `id` is the detection index. -/
theorem buildStep_some_shape {Raw Img Contour : Type} (e : CVEngine Raw Img Contour)
    (imageData : ImageData Raw) (detections : List CardDetection)
    (classify : ImageData Raw → Except JsError Classification)
    (cards : List FrameCard) (idx : Fin detections.length) :
    (∃ err, buildStep (some e) imageData detections classify cards idx = .error err) ∨
    (∃ c : FrameCard, c.id = idx.val ∧
      buildStep (some e) imageData detections classify cards idx = .ok (cards ++ [c])) := by
  cases hw : warpCardToImageData (some e) imageData (detections.get idx).corners 200 300 with
  | error err =>
    left
    exact ⟨err, by unfold buildStep; simp only [hw]⟩
  | ok o =>
    cases o with
    | none => exact absurd hw (warp_some_ne_ok_none e imageData _ 200 300)
    | some img =>
      cases hc : classify img with
      | error err =>
        left
        exact ⟨err, by unfold buildStep; simp only [hw, hc]⟩
      | ok cl =>
        right
        exact ⟨{ id := idx.val, bbox := (detections.get idx).bbox,
                 corners := (detections.get idx).corners,
                 confidence := (detections.get idx).confidence,
                 shape := (indicesToCard cl.shape cl.color cl.number cl.shading).1,
                 color := (indicesToCard cl.shape cl.color cl.number cl.shading).2.1,
                 number := (indicesToCard cl.shape cl.color cl.number cl.shading).2.2.1,
                 shading := (indicesToCard cl.shape cl.color cl.number cl.shading).2.2.2 },
               rfl, by unfold buildStep; simp only [hw, hc]⟩

/-- Fold invariant of the assembly loop with an available backend: a
successful run extends the accumulator by one card per processed index, the
pushed ids being exactly the processed indices in order. -/
theorem buildCards_ids_aux {Raw Img Contour : Type} (e : CVEngine Raw Img Contour)
    (imageData : ImageData Raw) (detections : List CardDetection)
    (classify : ImageData Raw → Except JsError Classification) :
    ∀ (l : List (Fin detections.length)) (acc res : List FrameCard),
      l.foldlM (buildStep (some e) imageData detections classify) acc = .ok res →
      res.map (fun c => c.id) = acc.map (fun c => c.id) ++ l.map (fun i => i.val) := by
  intro l
  induction l with
  | nil =>
    intro acc res h
    rw [List.foldlM_nil] at h
    simp only [pure, Except.pure, Except.ok.injEq] at h
    subst h
    simp
  | cons i t ih =>
    intro acc res h
    rw [List.foldlM_cons] at h
    rcases buildStep_some_shape e imageData detections classify acc i with
      ⟨err, he⟩ | ⟨c, hid, hok⟩
    · rw [he] at h
      exact absurd h (by simp [Bind.bind, Except.bind])
    · rw [hok] at h
      have hres := ih (acc ++ [c]) res h
      simp only [hres, List.map_append, List.map_cons, List.map_nil]
      simp [hid]

/-- C4: in every successfully assembled per-frame card list, the card at
position `p` has `id = p`.  With the backend available the rectification of
the source never returns `null`, so no card is ever skipped and the ids are
the consecutive detection indices; with the backend absent every card is
skipped and the list is empty. -/
theorem c4_card_ids {Raw Img Contour : Type}
    (engine : Option (CVEngine Raw Img Contour)) (imageData : ImageData Raw)
    (detections : List CardDetection)
    (classify : ImageData Raw → Except JsError Classification)
    (cards : List FrameCard)
    (h : buildCards engine imageData detections classify = .ok cards) :
    ∀ p (hp : p < cards.length), (cards.get ⟨p, hp⟩).id = p := by
  cases engine with
  | none =>
    rw [buildCards_none imageData detections classify] at h
    obtain rfl : ([] : List FrameCard) = cards := by
      simpa using h
    intro p hp
    simp at hp
  | some e =>
    have hm := buildCards_ids_aux e imageData detections classify
      (List.finRange detections.length) [] cards h
    simp only [List.map_nil, List.nil_append] at hm
    intro p hp
    have hpn : p < (List.finRange detections.length).length := by
      have hl := congrArg List.length hm
      simp only [List.length_map, List.length_finRange] at hl
      simpa [hl] using hp
    have hq := congrArg (fun l => l[p]?) hm
    simp only [List.getElem?_map] at hq
    rw [List.getElem?_eq_getElem hp, List.getElem?_eq_getElem hpn] at hq
    simp only [Option.map_some', Option.some.injEq, List.getElem_finRange] at hq
    simpa [List.get_eq_getElem] using hq

/-- Witness for C4: a concrete two-detection frame with a trivial backend
and a constant classifier; the card at position 0 has id 0. -/
theorem c4_witness :
    ∃ cards, buildCards (some unitEngine) ⟨(), 100, 100⟩ [det0, det1]
        (fun _ => .ok ⟨0, 0, 0, 0⟩) = .ok cards ∧
      ∀ p (hp : p < cards.length), (cards.get ⟨p, hp⟩).id = p := by
  refine ⟨_, rfl, ?_⟩
  exact c4_card_ids (some unitEngine) ⟨(), 100, 100⟩ [det0, det1]
    (fun _ => .ok ⟨0, 0, 0, 0⟩) _ rfl

/-- The overlap test, characterised by the spec-side areas: it holds iff the
intersection area strictly exceeds `threshold` times the smaller box
area. -/
theorem rectanglesOverlap_iff (a b : BBox) (t : ℚ) :
    rectanglesOverlap a b t = true ↔
      interArea a b > min (boxArea a) (boxArea b) * t := by
  simp [rectanglesOverlap, interArea, boxArea]

/-- The deduplication loop never retains two detections whose boxes overlap
by strictly more than 40 percent of the smaller area: the retained list is
pairwise within the threshold (provided the initial accumulator is). -/
theorem dedup_pairwise (dets : List CardDetection) :
    ∀ acc : List CardDetection,
      acc.Pairwise (fun x y =>
        interArea x.bbox y.bbox ≤ min (boxArea x.bbox) (boxArea y.bbox) * (2/5)) →
      (dedupDetections acc dets).Pairwise (fun x y =>
        interArea x.bbox y.bbox ≤ min (boxArea x.bbox) (boxArea y.bbox) * (2/5)) := by
  induction dets with
  | nil => intro acc hacc; exact hacc
  | cons d t ih =>
    intro acc hacc
    show (dedupDetections (dedupStep acc d) t).Pairwise _
    apply ih
    unfold dedupStep
    by_cases hov : acc.any (fun existing => rectanglesOverlap existing.bbox d.bbox (2/5)) = true
    · rw [if_pos hov]
      exact hacc
    · rw [if_neg hov]
      rw [List.pairwise_append]
      refine ⟨hacc, List.pairwise_singleton _ _, ?_⟩
      intro x hx y hy
      simp only [List.mem_singleton] at hy
      have hfalse : rectanglesOverlap x.bbox y.bbox (2/5) = false := by
        rcases Bool.eq_false_or_eq_true (rectanglesOverlap x.bbox y.bbox (2/5)) with h | h
        · rw [hy] at h
          exact absurd (List.any_eq_true.mpr ⟨x, hx, h⟩) hov
        · exact h
      have := (rectanglesOverlap_iff x.bbox y.bbox (2/5)).not.mp (by simp [hfalse])
      exact le_of_not_lt this

/-- C3 (amended): in a detection pass producing exactly two regions, the
second is discarded iff its box overlaps the first by strictly more than 40
percent of the smaller area (at exactly 40 percent both are kept); and in
general any two regions retained by the deduplication loop overlap by at
most 40 percent of the smaller area. -/
theorem c3_dedup_contract (a b : CardDetection) :
    (interArea a.bbox b.bbox > min (boxArea a.bbox) (boxArea b.bbox) * (2/5) →
      dedupDetections [] [a, b] = [a]) ∧
    (interArea a.bbox b.bbox ≤ min (boxArea a.bbox) (boxArea b.bbox) * (2/5) →
      dedupDetections [] [a, b] = [a, b]) ∧
    (∀ dets : List CardDetection,
      (dedupDetections [] dets).Pairwise (fun x y =>
        interArea x.bbox y.bbox ≤ min (boxArea x.bbox) (boxArea y.bbox) * (2/5))) := by
  have hstep : dedupDetections [] [a, b] =
      if rectanglesOverlap a.bbox b.bbox (2/5) then [a] else [a, b] := by
    show dedupStep (dedupStep [] a) b = _
    unfold dedupStep
    simp [List.any_cons]
  refine ⟨?_, ?_, fun dets => dedup_pairwise dets [] (List.Pairwise.nil)⟩
  · intro h
    rw [hstep, if_pos ((rectanglesOverlap_iff a.bbox b.bbox (2/5)).mpr h)]
  · intro h
    rw [hstep, if_neg ?_]
    intro hov
    exact absurd ((rectanglesOverlap_iff a.bbox b.bbox (2/5)).mp hov) (not_lt.mpr h)

/-- Witness for C3 (amended): `dC` overlaps `dA` by 100 percent of the
smaller area, so only `dA` is retained; and `dB` overlaps `dA` by exactly 40
percent, so both are retained. -/
theorem c3_witness :
    (interArea dA.bbox dC.bbox > min (boxArea dA.bbox) (boxArea dC.bbox) * (2/5) ∧
      dedupDetections [] [dA, dC] = [dA]) ∧
    (interArea dA.bbox dB.bbox ≤ min (boxArea dA.bbox) (boxArea dB.bbox) * (2/5) ∧
      dedupDetections [] [dA, dB] = [dA, dB]) :=
  ⟨⟨by norm_num [interArea, boxArea, dA, dC],
    (c3_dedup_contract dA dC).1 (by norm_num [interArea, boxArea, dA, dC])⟩,
   ⟨by norm_num [interArea, boxArea, dA, dB],
    (c3_dedup_contract dA dB).2.1 (by norm_num [interArea, boxArea, dA, dB])⟩⟩

/-- Counterexample to C3 as stated: the boxes of `dA` and `dB` intersect in
exactly 40 percent of the smaller area — which the claim says must collapse
to one retained region — yet the deduplication loop retains both, because
the source test is strict (`overlapArea > minArea * 0.4`). -/
theorem c3_counterexample :
    interArea dA.bbox dB.bbox ≥ min (boxArea dA.bbox) (boxArea dB.bbox) * (2/5) ∧
    dedupDetections [] [dA, dB] = [dA, dB] := by
  constructor
  · norm_num [interArea, boxArea, dA, dB]
  · show dedupStep (dedupStep [] dA) dB = [dA, dB]
    unfold dedupStep
    norm_num [rectanglesOverlap, dA, dB, List.any_cons]

/-- Antisymmetry of the rational order, needed by the list extremum
lemmas. -/
instance : Std.Antisymm (fun a b : ℚ => a ≤ b) :=
  ⟨fun h h2 => le_antisymm h h2⟩

/-- Characterisation of `List.min?` over the rationals. -/
theorem q_min?_eq_some_iff {l : List ℚ} {m : ℚ} :
    l.min? = some m ↔ m ∈ l ∧ ∀ b ∈ l, m ≤ b :=
  List.min?_eq_some_iff (fun a => le_refl a) (fun a b => min_choice a b)
    (fun _ _ _ => le_min_iff)

/-- Characterisation of `List.max?` over the rationals. -/
theorem q_max?_eq_some_iff {l : List ℚ} {m : ℚ} :
    l.max? = some m ↔ m ∈ l ∧ ∀ b ∈ l, b ≤ m :=
  List.max?_eq_some_iff (fun a => le_refl a) (fun a b => max_choice a b)
    (fun _ _ _ => max_le_iff)

/-- A point selected at the minimal score is a member attaining the minimal
score. -/
theorem selectAt_min_spec (pts : List Point) (f : Point → ℚ) (x : Point)
    (h : selectAt pts f (pts.map f).min? = some x) :
    x ∈ pts ∧ ∀ r ∈ pts, f x ≤ f r := by
  cases hm : (pts.map f).min? with
  | none =>
    rw [hm] at h
    exact absurd h (by simp [selectAt])
  | some m =>
    rw [hm] at h
    replace h : pts.find? (fun p => f p == m) = some x := h
    obtain ⟨_, hle⟩ := q_min?_eq_some_iff.mp hm
    have hx_mem := List.mem_of_find?_eq_some h
    have hx_val : f x = m := by simpa using List.find?_some h
    refine ⟨hx_mem, fun r hr => ?_⟩
    rw [hx_val]
    exact hle (f r) (List.mem_map_of_mem f hr)

/-- A point selected at the maximal score is a member attaining the maximal
score. -/
theorem selectAt_max_spec (pts : List Point) (f : Point → ℚ) (x : Point)
    (h : selectAt pts f (pts.map f).max? = some x) :
    x ∈ pts ∧ ∀ r ∈ pts, f r ≤ f x := by
  cases hm : (pts.map f).max? with
  | none =>
    rw [hm] at h
    exact absurd h (by simp [selectAt])
  | some m =>
    rw [hm] at h
    replace h : pts.find? (fun p => f p == m) = some x := h
    obtain ⟨_, hle⟩ := q_max?_eq_some_iff.mp hm
    have hx_mem := List.mem_of_find?_eq_some h
    have hx_val : f x = m := by simpa using List.find?_some h
    refine ⟨hx_mem, fun r hr => ?_⟩
    rw [hx_val]
    exact hle (f r) (List.mem_map_of_mem f hr)

/-- When the minimal score is attained by a unique point, the first-match
selection at the minimal score does not depend on the traversal order. -/
theorem selectAt_min_perm (pts pts2 : List Point) (f : Point → ℚ)
    (hperm : pts2.Perm pts)
    (huniq : ∀ p ∈ pts, ∀ q ∈ pts,
      (∀ r ∈ pts, f p ≤ f r) → (∀ r ∈ pts, f q ≤ f r) → p = q) :
    selectAt pts2 f (pts2.map f).min? = selectAt pts f (pts.map f).min? := by
  cases hm : (pts.map f).min? with
  | none =>
    have h0 : pts = [] := by
      have := List.min?_eq_none_iff.mp hm
      simpa using this
    subst h0
    have h2 : pts2 = [] := hperm.eq_nil
    subst h2
    rfl
  | some m =>
    obtain ⟨hmem, hle⟩ := q_min?_eq_some_iff.mp hm
    have hm2 : (pts2.map f).min? = some m := by
      refine q_min?_eq_some_iff.mpr ⟨(hperm.map f).mem_iff.mpr hmem, ?_⟩
      intro b hb
      exact hle b ((hperm.map f).mem_iff.mp hb)
    obtain ⟨p1, hp1m, hp1v⟩ := List.mem_map.mp hmem
    have hfind1 : ∃ x1, pts.find? (fun p => f p == m) = some x1 := by
      rw [← Option.isSome_iff_exists]
      exact List.find?_isSome.mpr ⟨p1, hp1m, by simpa using hp1v⟩
    have hfind2 : ∃ x2, pts2.find? (fun p => f p == m) = some x2 := by
      rw [← Option.isSome_iff_exists]
      exact List.find?_isSome.mpr ⟨p1, hperm.mem_iff.mpr hp1m, by simpa using hp1v⟩
    obtain ⟨x1, hx1⟩ := hfind1
    obtain ⟨x2, hx2⟩ := hfind2
    have hx1m : x1 ∈ pts := List.mem_of_find?_eq_some hx1
    have hx2m : x2 ∈ pts := hperm.mem_iff.mp (List.mem_of_find?_eq_some hx2)
    have hx1v : f x1 = m := by simpa using List.find?_some hx1
    have hx2v : f x2 = m := by simpa using List.find?_some hx2
    have hx1min : ∀ r ∈ pts, f x1 ≤ f r := fun r hr => by
      rw [hx1v]; exact hle (f r) (List.mem_map_of_mem f hr)
    have hx2min : ∀ r ∈ pts, f x2 ≤ f r := fun r hr => by
      rw [hx2v]; exact hle (f r) (List.mem_map_of_mem f hr)
    have hxx : x2 = x1 := huniq x2 hx2m x1 hx1m hx2min hx1min
    rw [hm2]
    show pts2.find? (fun p => f p == m) = pts.find? (fun p => f p == m)
    rw [hx1, hx2, hxx]

/-- When the maximal score is attained by a unique point, the first-match
selection at the maximal score does not depend on the traversal order. -/
theorem selectAt_max_perm (pts pts2 : List Point) (f : Point → ℚ)
    (hperm : pts2.Perm pts)
    (huniq : ∀ p ∈ pts, ∀ q ∈ pts,
      (∀ r ∈ pts, f r ≤ f p) → (∀ r ∈ pts, f r ≤ f q) → p = q) :
    selectAt pts2 f (pts2.map f).max? = selectAt pts f (pts.map f).max? := by
  cases hm : (pts.map f).max? with
  | none =>
    have h0 : pts = [] := by
      have := List.max?_eq_none_iff.mp hm
      simpa using this
    subst h0
    have h2 : pts2 = [] := hperm.eq_nil
    subst h2
    rfl
  | some m =>
    obtain ⟨hmem, hle⟩ := q_max?_eq_some_iff.mp hm
    have hm2 : (pts2.map f).max? = some m := by
      refine q_max?_eq_some_iff.mpr ⟨(hperm.map f).mem_iff.mpr hmem, ?_⟩
      intro b hb
      exact hle b ((hperm.map f).mem_iff.mp hb)
    obtain ⟨p1, hp1m, hp1v⟩ := List.mem_map.mp hmem
    have hfind1 : ∃ x1, pts.find? (fun p => f p == m) = some x1 := by
      rw [← Option.isSome_iff_exists]
      exact List.find?_isSome.mpr ⟨p1, hp1m, by simpa using hp1v⟩
    have hfind2 : ∃ x2, pts2.find? (fun p => f p == m) = some x2 := by
      rw [← Option.isSome_iff_exists]
      exact List.find?_isSome.mpr ⟨p1, hperm.mem_iff.mpr hp1m, by simpa using hp1v⟩
    obtain ⟨x1, hx1⟩ := hfind1
    obtain ⟨x2, hx2⟩ := hfind2
    have hx1m : x1 ∈ pts := List.mem_of_find?_eq_some hx1
    have hx2m : x2 ∈ pts := hperm.mem_iff.mp (List.mem_of_find?_eq_some hx2)
    have hx1v : f x1 = m := by simpa using List.find?_some hx1
    have hx2v : f x2 = m := by simpa using List.find?_some hx2
    have hx1max : ∀ r ∈ pts, f r ≤ f x1 := fun r hr => by
      rw [hx1v]; exact hle (f r) (List.mem_map_of_mem f hr)
    have hx2max : ∀ r ∈ pts, f r ≤ f x2 := fun r hr => by
      rw [hx2v]; exact hle (f r) (List.mem_map_of_mem f hr)
    have hxx : x2 = x1 := huniq x2 hx2m x1 hx1m hx2max hx1max
    rw [hm2]
    show pts2.find? (fun p => f p == m) = pts.find? (fun p => f p == m)
    rw [hx1, hx2, hxx]

/-- Inversion of a successful corner ordering into its four component
selections. -/
theorem orderCorners_eq_some (pts : List Point) (tl tr br bl : Point)
    (h : orderCorners pts = some (tl, tr, br, bl)) :
    selectAt pts sumXY (pts.map sumXY).min? = some tl ∧
    selectAt pts diffYX (pts.map diffYX).min? = some tr ∧
    selectAt pts sumXY (pts.map sumXY).max? = some br ∧
    selectAt pts diffYX (pts.map diffYX).max? = some bl := by
  unfold orderCorners at h
  split at h
  · rename_i a b c d heq1 heq2 heq3 heq4
    injection h with h2
    simp only [Prod.mk.injEq] at h2
    obtain ⟨rfl, rfl, rfl, rfl⟩ := h2
    exact ⟨heq1, heq2, heq3, heq4⟩
  · exact absurd h (by simp)

/-- C6 (amended): whenever the four corner-score extrema (minimum and
maximum of `x + y` and of `y - x`) are each uniquely attained among the
points — which holds for convex quadrilaterals without score ties, though
not for all of them — `orderCorners` returns the same assignment for every
permutation of the input list, and its output is characterised by those
extrema: top-left and bottom-right attain the minimal and maximal `x + y`,
top-right and bottom-left the minimal and maximal `y - x`. -/
theorem c6_orderCorners_perm (pts pts2 : List Point) (hperm : pts2.Perm pts)
    (h1 : ∀ p ∈ pts, ∀ q ∈ pts,
      (∀ r ∈ pts, sumXY p ≤ sumXY r) → (∀ r ∈ pts, sumXY q ≤ sumXY r) → p = q)
    (h2 : ∀ p ∈ pts, ∀ q ∈ pts,
      (∀ r ∈ pts, sumXY r ≤ sumXY p) → (∀ r ∈ pts, sumXY r ≤ sumXY q) → p = q)
    (h3 : ∀ p ∈ pts, ∀ q ∈ pts,
      (∀ r ∈ pts, diffYX p ≤ diffYX r) → (∀ r ∈ pts, diffYX q ≤ diffYX r) → p = q)
    (h4 : ∀ p ∈ pts, ∀ q ∈ pts,
      (∀ r ∈ pts, diffYX r ≤ diffYX p) → (∀ r ∈ pts, diffYX r ≤ diffYX q) → p = q) :
    orderCorners pts2 = orderCorners pts ∧
    (∀ tl tr br bl, orderCorners pts = some (tl, tr, br, bl) →
      (tl ∈ pts ∧ ∀ r ∈ pts, sumXY tl ≤ sumXY r) ∧
      (tr ∈ pts ∧ ∀ r ∈ pts, diffYX tr ≤ diffYX r) ∧
      (br ∈ pts ∧ ∀ r ∈ pts, sumXY r ≤ sumXY br) ∧
      (bl ∈ pts ∧ ∀ r ∈ pts, diffYX r ≤ diffYX bl)) := by
  constructor
  · unfold orderCorners
    rw [selectAt_min_perm pts pts2 sumXY hperm h1,
      selectAt_max_perm pts pts2 sumXY hperm h2,
      selectAt_min_perm pts pts2 diffYX hperm h3,
      selectAt_max_perm pts pts2 diffYX hperm h4]
  · intro tl tr br bl h
    obtain ⟨e1, e2, e3, e4⟩ := orderCorners_eq_some pts tl tr br bl h
    exact ⟨selectAt_min_spec pts sumXY tl e1, selectAt_min_spec pts diffYX tr e2,
      selectAt_max_spec pts sumXY br e3, selectAt_max_spec pts diffYX bl e4⟩

set_option maxHeartbeats 1000000 in
/-- Witness for C6: the axis-aligned unit square has uniquely attained
corner scores, and the theorem applied to its reversed traversal yields the
same corner assignment. -/
theorem c6_witness : orderCorners squareQrev = orderCorners squareQ := by
  have hperm : squareQrev.Perm squareQ := by
    have h := List.reverse_perm squareQ
    simpa [squareQ, squareQrev] using h
  refine (c6_orderCorners_perm squareQ squareQrev hperm ?_ ?_ ?_ ?_).1 <;>
    · simp only [squareQ, List.forall_mem_cons, List.forall_mem_nil, sumXY, diffYX,
        Prod.mk.injEq]
      norm_num

set_option maxHeartbeats 1000000 in
/-- Counterexample to C6 as stated: the four points of `quadTie` form a
convex quadrilateral (a square rotated 45 degrees), `quadTieRev` is its
reversed traversal, yet `orderCorners` assigns different corners to the two
traversals, because the tied extremal scores are resolved toward the first
matching index of the given input order. -/
theorem c6_counterexample :
    quadTieRev.Perm quadTie ∧
    orderCorners quadTieRev ≠ orderCorners quadTie := by
  constructor
  · have h := List.reverse_perm quadTie
    simpa [quadTie, quadTieRev] using h
  · norm_num [orderCorners, selectAt, sumXY, diffYX, List.min?, List.max?,
      List.find?, beq_eq_decide, quadTie, quadTieRev, Prod.ext_iff]

/-- C10: every detection emitted by the strategy pipeline has its
confidence set to the fill ratio of some detected contour, and that
confidence lies in `[0.60, 1]` — the lower bound by the fill-ratio filter,
the upper bound because a contour area never exceeds the area of its
enclosing minimum-area rectangle (the defining property of
`cv.minAreaRect`, taken as the hypothesis on the backend). -/
theorem c10_confidence_bounds {Raw Img Contour : Type} (e : CVEngine Raw Img Contour)
    (img : Img) (scale imgArea : ℚ) (params : Strategy)
    (hmin : ∀ c, e.contourArea c ≤ (e.minAreaRect c).width * (e.minAreaRect c).height)
    (det : CardDetection) (hdet : det ∈ detectWithStrategy e img scale imgArea params) :
    (3/5 ≤ det.confidence ∧ det.confidence ≤ 1) ∧
    ∃ c ∈ e.contoursOf params img,
      det.confidence =
        e.contourArea c / ((e.minAreaRect c).width * (e.minAreaRect c).height) := by
  simp only [detectWithStrategy, List.mem_filterMap] at hdet
  obtain ⟨c, hc, hf⟩ := hdet
  split_ifs at hf with h1 h2 h3 h4 h5 h6
  split at hf
  · exact Option.noConfusion hf
  · split_ifs at hf with h7
    injection hf with hfd
    subst hfd
    have hrect : (0 : ℚ) < (e.minAreaRect c).width * (e.minAreaRect c).height := by
      have := not_le.mp h3
      linarith
    refine ⟨⟨?_, ?_⟩, c, hc, rfl⟩
    · have hge := not_lt.mp h4
      calc (3/5 : ℚ) = 60/100 := by norm_num
      _ ≤ _ := hge
    · exact (div_le_one hrect).mpr (hmin c)

/-- Witness for C10: the single contour of `eng10` passes every filter and
is emitted with confidence 5/6, which the theorem bounds within
`[0.60, 1]`. -/
theorem c10_witness :
    (3/5 ≤ det10.confidence ∧ det10.confidence ≤ 1) ∧
    ∃ c ∈ eng10.contoursOf strat0 (), det10.confidence =
      eng10.contourArea c / ((eng10.minAreaRect c).width * (eng10.minAreaRect c).height) :=
  c10_confidence_bounds eng10 () 1 10000 strat0
    (fun c => by norm_num [eng10])
    det10
    (by show det10 ∈ detectWithStrategy eng10 () 1 10000 strat0
        have h : detectWithStrategy eng10 () 1 10000 strat0 = [det10] := by
          norm_num [detectWithStrategy, eng10, strat0, det10, orderCorners, selectAt,
            sumXY, diffYX, List.min?, List.max?, List.find?, beq_eq_decide, min4, max4,
            List.filterMap_cons, List.filterMap_nil]
        rw [h]
        exact List.mem_singleton_self det10)

/-- On the shape domain, the Set rule holds iff the third value is the
required third value of the first two. -/
theorem iod_shape_third (a b c : Shape) :
    isIdenticalOrDistinct a b c = true ↔ c = getThirdValue a b SHAPES := by
  revert a b c
  decide

/-- On the color domain, the Set rule holds iff the third value is the
required third value of the first two. -/
theorem iod_color_third (a b c : Color) :
    isIdenticalOrDistinct a b c = true ↔ c = getThirdValue a b COLORS := by
  revert a b c
  decide

/-- On the number domain, the Set rule holds iff the third value is the
required third value of the first two. -/
theorem iod_number_third (a b c : Number) :
    isIdenticalOrDistinct a b c = true ↔ c = getThirdValue a b NUMBERS := by
  revert a b c
  decide

/-- On the shading domain, the Set rule holds iff the third value is the
required third value of the first two. -/
theorem iod_shading_third (a b c : Shading) :
    isIdenticalOrDistinct a b c = true ↔ c = getThirdValue a b SHADINGS := by
  revert a b c
  decide

/-- A triple of cards is a valid set iff the signature of the third card is
exactly the required third-card vector of the first two. -/
theorem isValidSet_iff_key (c1 c2 c3 : Card) :
    isValidSet c1 c2 c3 = true ↔ cardKey c3 = computeRequiredThirdCard c1 c2 := by
  unfold isValidSet cardKey computeRequiredThirdCard
  simp only [Bool.and_eq_true, iod_shape_third, iod_color_third, iod_number_third,
    iod_shading_third]
  constructor
  · rintro ⟨⟨⟨h1, h2⟩, h3⟩, h4⟩
    rw [h1, h2, h3, h4]
  · intro h
    injection h with h1 h
    injection h with h2 h
    injection h with h3 h4
    exact ⟨⟨⟨h1, h2⟩, h3⟩, h4⟩

/-- Any index stored in the card map bears the queried signature (fold
invariant of the map construction). -/
theorem cardMapOf_some_key (cards : List Card) (s : Sig) (k : Fin cards.length)
    (h : cardMapOf cards s = some k) : cardKey (cards.get k) = s := by
  unfold cardMapOf at h
  revert h
  suffices hgen : ∀ (l : List (Fin cards.length)) (m0 : Sig → Option (Fin cards.length)),
      (∀ s2 k2, m0 s2 = some k2 → cardKey (cards.get k2) = s2) →
      ∀ s2 k2,
        (l.foldl (fun m i => fun s3 =>
          if s3 = cardKey (cards.get i) then some i else m s3) m0) s2 = some k2 →
        cardKey (cards.get k2) = s2 by
    intro h
    exact hgen (List.finRange cards.length) (fun _ => none) (by intro _ _ hx; cases hx) s k h
  intro l
  induction l with
  | nil => intro m0 hm0; exact hm0
  | cons i t ih =>
    intro m0 hm0
    refine ih _ ?_
    intro s2 k2 hk2
    simp only [] at hk2
    by_cases hcase : s2 = cardKey (cards.get i)
    · rw [if_pos hcase] at hk2
      injection hk2 with hk2
      rw [hk2] at hcase
      exact hcase.symm
    · rw [if_neg hcase] at hk2
      exact hm0 s2 k2 hk2

/-- An entry already present in the card map survives the rest of the fold
(possibly replaced by a later index with the same signature). -/
theorem cardMapOf_fold_isSome (cards : List Card) :
    ∀ (l : List (Fin cards.length)) (m0 : Sig → Option (Fin cards.length)) (s : Sig),
      (m0 s).isSome = true →
      ((l.foldl (fun m i => fun s3 =>
        if s3 = cardKey (cards.get i) then some i else m s3) m0) s).isSome = true := by
  intro l
  induction l with
  | nil => intro m0 s h; exact h
  | cons i t ih =>
    intro m0 s h
    refine ih _ s ?_
    show (if s = cardKey (cards.get i) then some i else m0 s).isSome = true
    by_cases hcase : s = cardKey (cards.get i)
    · rw [if_pos hcase]; rfl
    · rw [if_neg hcase]; exact h

/-- The signature of every card in the list is present in the card map. -/
theorem cardMapOf_isSome (cards : List Card) (k : Fin cards.length) :
    (cardMapOf cards (cardKey (cards.get k))).isSome = true := by
  unfold cardMapOf
  suffices hgen : ∀ (l : List (Fin cards.length)) (m0 : Sig → Option (Fin cards.length)),
      k ∈ l ∨ (m0 (cardKey (cards.get k))).isSome = true →
      ((l.foldl (fun m i => fun s3 =>
        if s3 = cardKey (cards.get i) then some i else m s3) m0)
          (cardKey (cards.get k))).isSome = true by
    exact hgen (List.finRange cards.length) (fun _ => none) (.inl (List.mem_finRange k))
  intro l
  induction l with
  | nil =>
    intro m0 h
    rcases h with h | h
    · cases h
    · exact h
  | cons i t ih =>
    intro m0 h
    rcases h with h | h
    · rcases List.mem_cons.mp h with rfl | hmem
      · refine cardMapOf_fold_isSome cards t _ _ ?_
        show (if cardKey (cards.get k) = cardKey (cards.get k)
          then some k else m0 (cardKey (cards.get k))).isSome = true
        rw [if_pos rfl]
        rfl
      · exact ih _ (.inl hmem)
    · refine ih _ (.inr ?_)
      show (if cardKey (cards.get k) = cardKey (cards.get i)
        then some i else m0 (cardKey (cards.get k))).isSome = true
      by_cases hcase : cardKey (cards.get k) = cardKey (cards.get i)
      · rw [if_pos hcase]; rfl
      · rw [if_neg hcase]; exact h

/-- With pairwise-distinct signatures, the card map sends the signature of
the card at `k` exactly to `k`. -/
theorem cardMapOf_inj_eq (cards : List Card)
    (hinj : ∀ i j : Fin cards.length,
      cardKey (cards.get i) = cardKey (cards.get j) → i = j)
    (k : Fin cards.length) :
    cardMapOf cards (cardKey (cards.get k)) = some k := by
  obtain ⟨k2, hk2⟩ := Option.isSome_iff_exists.mp (cardMapOf_isSome cards k)
  have hkey := cardMapOf_some_key cards _ k2 hk2
  have hkk : k2 = k := hinj k2 k hkey
  rw [hk2, hkk]

/-- Membership in the brute-force result: exactly the ordered valid
triples. -/
theorem mem_findAllSets (cards : List Card) (r : SetResult) :
    r ∈ findAllSets cards ↔ ∃ i j k : Fin cards.length, i < j ∧ j < k ∧
      isValidSet (cards.get i) (cards.get j) (cards.get k) = true ∧
      r = ⟨(cards.get i, cards.get j, cards.get k), (i.val, j.val, k.val)⟩ := by
  unfold findAllSets
  simp only [List.mem_flatMap, List.mem_filterMap, List.mem_finRange, true_and]
  constructor
  · rintro ⟨i, j, k, hk⟩
    split_ifs at hk with h1 h2
    · injection hk with hk
      exact ⟨i, j, k, h1.1, h1.2, h2, hk.symm⟩
  · rintro ⟨i, j, k, hij, hjk, hval, rfl⟩
    refine ⟨i, j, k, ?_⟩
    rw [if_pos ⟨hij, hjk⟩, if_pos hval]

/-- Membership in the optimized result: exactly the pairs whose required
third signature is found at a later index. -/
theorem mem_findAllSetsOptimized (cards : List Card) (r : SetResult) :
    r ∈ findAllSetsOptimized cards ↔ ∃ i j k : Fin cards.length, i < j ∧
      cardMapOf cards (computeRequiredThirdCard (cards.get i) (cards.get j)) = some k ∧
      j < k ∧
      r = ⟨(cards.get i, cards.get j, cards.get k), (i.val, j.val, k.val)⟩ := by
  unfold findAllSetsOptimized
  simp only [List.mem_flatMap, List.mem_filterMap, List.mem_finRange, true_and]
  constructor
  · rintro ⟨i, j, hj⟩
    split_ifs at hj with h1
    split at hj
    · rename_i k hk
      split_ifs at hj with h2
      injection hj with hj
      exact ⟨i, j, k, h1, hk, h2, hj.symm⟩
    · exact Option.noConfusion hj
  · rintro ⟨i, j, k, hij, hmap, hjk, rfl⟩
    refine ⟨i, j, ?_⟩
    rw [if_pos hij, hmap]
    simp [hjk]

/-- C2 (amended): for every card list in which all cards have pairwise
distinct property combinations, the brute-force and the optimized set
finders return the same set of results (membership is equivalent, so the
index-triple sets agree regardless of order).  With duplicated property
combinations the optimized variant can drop triples, because the lookup map
keeps only the last index per signature (see the counterexample). -/
theorem c2_equivalence (cards : List Card)
    (hinj : ∀ i j : Fin cards.length,
      cardKey (cards.get i) = cardKey (cards.get j) → i = j)
    (r : SetResult) :
    r ∈ findAllSets cards ↔ r ∈ findAllSetsOptimized cards := by
  rw [mem_findAllSets, mem_findAllSetsOptimized]
  constructor
  · rintro ⟨i, j, k, hij, hjk, hval, rfl⟩
    refine ⟨i, j, k, hij, ?_, hjk, rfl⟩
    have hkey := (isValidSet_iff_key _ _ _).mp hval
    rw [← hkey]
    exact cardMapOf_inj_eq cards hinj k
  · rintro ⟨i, j, k, hij, hmap, hjk, rfl⟩
    have hkey := cardMapOf_some_key cards _ k hmap
    exact ⟨i, j, k, hij, hjk, (isValidSet_iff_key _ _ _).mpr hkey, rfl⟩

/-- Witness for C2: the three-card scenario of the specification has
pairwise-distinct signatures, and its unique valid triple is reported by
both algorithms. -/
theorem c2_witness :
    (∀ i j : Fin cardsABC.length,
      cardKey (cardsABC.get i) = cardKey (cardsABC.get j) → i = j) ∧
    (tripleABC ∈ findAllSets cardsABC ↔ tripleABC ∈ findAllSetsOptimized cardsABC) :=
  ⟨by decide, c2_equivalence cardsABC (by decide) tripleABC⟩

/-- Counterexample to C2 as stated: on the four-card list `cardsDup`
(duplicate property combination at indices 2 and 3), the brute-force finder
reports the triple `(0, 1, 2)` but the optimized finder does not — its
lookup map sends the squiggle signature to the last index 3, so only
`(0, 1, 3)` is reported.  The promised order-insensitive equality of the
index-triple sets fails for inputs with duplicate property combinations. -/
theorem c2_counterexample :
    tripleABC ∈ findAllSets cardsDup ∧ tripleABC ∉ findAllSetsOptimized cardsDup := by
  constructor
  · decide
  · decide
